import Mathlib

/-!
Verification development for the Gridly hexagonal-grid library.

The Rust sources under `src/src/hex/` are shallowly embedded below:
machine integers (`i32`) become `Int`, `f64` computations become exact
rational arithmetic (the code only ever uses the literal constant
`SQRT_3`, never a square-root primitive, so every world-space value is
a rational number), `HashMap` becomes a function into `Option`, and the
`ndarray` 2-D array of a shape becomes a list of rows.

The repository modules `hex/coordinate.rs`, `hex/edge.rs` and
`hex/shape.rs` are referenced by the embedded code but are not present
under `src/`; the definitions taken from them are modelled from the
specification and are marked `Modelled from the spec:` in their doc
comments.
-/

namespace Gridava

/-- Axial cell coordinate. Modelled from the spec: `hex/coordinate.rs` is
absent from `src/`; the spec describes `CellCoordinate` as two signed
integers `(q, r)`, and the `axial!` macro used throughout `grid.rs` and
`vertex.rs` constructs exactly such a pair. -/
structure Axial where
  q : Int
  r : Int
deriving DecidableEq, Repr

/-- Enum denoting orientation of hexagons in a grid, from
`src/src/hex/grid.rs`. -/
inductive HexOrientation where
  | FlatTop
  | PointyTop
deriving DecidableEq, Repr

/-- The constant `SQRT_3` from `src/src/hex/grid.rs`: the decimal literal
`1.732050807568877293527446341505872367_f64`, embedded as the exact
rational value of that literal (the code never calls a square-root
primitive). -/
def SQRT_3 : ℚ := 1.732050807568877293527446341505872367

/-- Vertex spin from `src/src/hex/vertex.rs`. -/
inductive VertexSpin where
  | Up
  | Down
deriving DecidableEq, Repr

/-- Vertex direction from `src/src/hex/vertex.rs`. -/
inductive VertexDirection where
  | Up
  | UpRight
  | DownRight
  | Down
  | DownLeft
  | UpLeft
deriving DecidableEq, Repr

/-- A hexagonal-grid vertex from `src/src/hex/vertex.rs`: axial pair plus
spin. -/
structure Vertex where
  q : Int
  r : Int
  spin : VertexSpin
deriving DecidableEq, Repr

/-- Canonical edge direction. Modelled from the spec: `hex/edge.rs` is
absent from `src/`; the spec fixes `EdgeDirection` as a "3-valued
canonical tag (e.g. West, NorthEast, NorthWest)", and `vertex.rs` uses
exactly the variants `West`, `NorthEast` and `NorthWest`. -/
inductive EdgeDirection where
  | West
  | NorthEast
  | NorthWest
deriving DecidableEq, Repr

/-- Edge coordinate. Modelled from the spec: `hex/edge.rs` is absent from
`src/`; the spec identifies an edge by `(q, r, direction)` and the
`edge!` macro used in `vertex.rs` constructs exactly such a triple. -/
structure Edge where
  q : Int
  r : Int
  dir : EdgeDirection
deriving DecidableEq, Repr

/-- A composable coordinate transform. Modelled from the spec:
`hex/coordinate.rs` is absent from `src/`; the spec describes
`Transform` as "a composable operation (rotation by a multiple of 60°,
translation, reflection) applicable to a CellCoordinate". -/
structure Transform where
  rotation : Int
  translation : Axial
  reflected : Bool
deriving DecidableEq, Repr

/-- One 60° clockwise axial rotation step. Modelled from the spec: the
standard axial rotation used to realise the spec's "rotation by a
multiple of 60°". -/
def Axial.rotateStep (c : Axial) : Axial :=
  ⟨-c.r, c.q + c.r⟩

/-- Axial reflection. Modelled from the spec: a coordinate reflection
realising the spec's "reflection" component of a transform. -/
def Axial.reflect (c : Axial) : Axial :=
  ⟨c.r, c.q⟩

/-- Apply a transform to an axial coordinate. Modelled from the spec:
`hex/coordinate.rs` is absent from `src/`; per the spec a transform
rotates by a multiple of 60°, optionally reflects, and translates. -/
def Axial.apply_transform (c : Axial) (t : Transform) : Axial :=
  let rot := Axial.rotateStep^[(t.rotation % 6).toNat] c
  let ref := if t.reflected then rot.reflect else rot
  ⟨ref.q + t.translation.q, ref.r + t.translation.r⟩

/-- Hex-grid cell distance. Modelled from the spec: `hex/coordinate.rs`
is absent from `src/`; the spec defines `distance(a, b)` as the cube
metric `(|dq| + |dr| + |dq + dr|) / 2`. -/
def Axial.distance (a b : Axial) : Int :=
  (|a.q - b.q| + |a.r - b.r| + |a.q - b.q + (a.r - b.r)|) / 2

/-- A bounded local pattern of optional payloads plus a transform.
Modelled from the spec: `hex/shape.rs` is absent from `src/`; the spec
describes `Shape` as "an immutable-size local 2-D indexed array of
optional payload values, plus one attached Transform". The 2-D array is
embedded as a list of rows, row `i` holding the slots with local
coordinate `(i, j)`. -/
structure HexShape (T : Type) where
  hexes : List (List (Option T))
  transform : Transform

/-- Indexed enumeration of every local slot of a shape, in array order.
Modelled from the spec: realises `shape.get_hexes().indexed_iter()`
used by `grid.rs`, which yields `((i, j), slot)` for every slot,
populated and empty, in row-major order. -/
def HexShape.get_hexes {T : Type} (s : HexShape T) : List ((Nat × Nat) × Option T) :=
  (s.hexes.mapIdx fun i row => row.mapIdx fun j slot => ((i, j), slot)).flatten

/-- A grid of tiles, from `src/src/hex/grid.rs`. Each `HashMap` is
embedded as a function into `Option`. -/
structure HexGrid (T V E : Type) where
  orientation : HexOrientation
  hex_size : ℚ
  tiles : Axial → Option T
  vertices : Vertex → Option V
  edges : Edge → Option E

/-- Grid with empty mappings, fixed orientation and size; used to state
theorems about the conversion functions. -/
def mkGrid (o : HexOrientation) (s : ℚ) : HexGrid Unit Unit Unit :=
  ⟨o, s, fun _ => none, fun _ => none, fun _ => none⟩

/-- Pointy-top branch of `HexGrid::world_to_hex` from
`src/src/hex/grid.rs`. -/
def world_to_hex_pt (hex_size : ℚ) (worldspace : ℚ × ℚ) : Axial :=
  let x := worldspace.1 / (SQRT_3 * hex_size)
  let y := -worldspace.2 / (SQRT_3 * hex_size)
  let t := SQRT_3 * y + 1
  let temp1 : ℚ := ((⌊t + x⌋ : ℤ) : ℚ)
  let temp2 := t - x
  let temp3 := 2 * x + 1
  let qf := (temp1 + temp3) / 3
  let rf := (temp1 + temp2) / 3
  ⟨⌊qf⌋, -⌊rf⌋⟩

/-- Flat-top branch of `HexGrid::world_to_hex` from
`src/src/hex/grid.rs`. -/
def world_to_hex_ft (hex_size : ℚ) (worldspace : ℚ × ℚ) : Axial :=
  let y := worldspace.1 / (SQRT_3 * hex_size)
  let x := -worldspace.2 / (SQRT_3 * hex_size)
  let t := SQRT_3 * y + 1
  let temp1 : ℚ := ((⌊t + x⌋ : ℤ) : ℚ)
  let temp2 := t - x
  let temp3 := 2 * x + 1
  let rf := (temp1 + temp3) / 3
  let qf := (temp1 + temp2) / 3
  ⟨⌊qf⌋, -⌊rf⌋⟩

/-- `HexGrid::world_to_hex` from `src/src/hex/grid.rs`: dispatch on the
grid's orientation. -/
def HexGrid.world_to_hex {T V E : Type} (g : HexGrid T V E) (worldspace : ℚ × ℚ) : Axial :=
  match g.orientation with
  | HexOrientation.PointyTop => world_to_hex_pt g.hex_size worldspace
  | HexOrientation.FlatTop => world_to_hex_ft g.hex_size worldspace

/-- `HexGrid::hex_to_world` from `src/src/hex/grid.rs`. -/
def HexGrid.hex_to_world {T V E : Type} (g : HexGrid T V E) (coord : Axial) : ℚ × ℚ :=
  match g.orientation with
  | HexOrientation.PointyTop =>
      (g.hex_size * (SQRT_3 * (coord.q : ℚ) + SQRT_3 / 2 * (coord.r : ℚ)),
       g.hex_size * (3 / 2 * (coord.r : ℚ)))
  | HexOrientation.FlatTop =>
      (g.hex_size * (3 / 2 * (coord.q : ℚ)),
       g.hex_size * (SQRT_3 / 2 * (coord.q : ℚ) + SQRT_3 * (coord.r : ℚ)))

/-- Conversion of an `i32` into a `VertexDirection`, from
`impl From of i32 for VertexDirection` in `src/src/hex/vertex.rs`: the
input is reduced with `rem_euclid(6)` (embedded as `Int.emod`, which
also yields the non-negative remainder) and dispatched; the code's
`unreachable` arm is embedded as `none`. -/
def vertexDirectionFromI32 (value : Int) : Option VertexDirection :=
  match value.emod 6 with
  | 0 => some VertexDirection.Up
  | 1 => some VertexDirection.UpRight
  | 2 => some VertexDirection.DownRight
  | 3 => some VertexDirection.Down
  | 4 => some VertexDirection.DownLeft
  | 5 => some VertexDirection.UpLeft
  | _ => none

/-- `Vertex::adjacent_hexes` from `src/src/hex/vertex.rs`. -/
def Vertex.adjacent_hexes (v : Vertex) : List Axial :=
  if v.spin = VertexSpin.Up then
    [⟨v.q, v.r⟩, ⟨v.q, v.r - 1⟩, ⟨v.q + 1, v.r - 1⟩]
  else
    [⟨v.q, v.r⟩, ⟨v.q, v.r + 1⟩, ⟨v.q - 1, v.r + 1⟩]

/-- `Vertex::adjacent_vertices` from `src/src/hex/vertex.rs`. -/
def Vertex.adjacent_vertices (v : Vertex) : List Vertex :=
  if v.spin = VertexSpin.Up then
    [⟨v.q + 1, v.r - 1, VertexSpin.Down⟩, ⟨v.q, v.r - 1, VertexSpin.Down⟩,
     ⟨v.q + 1, v.r - 2, VertexSpin.Down⟩]
  else
    [⟨v.q, v.r + 1, VertexSpin.Up⟩, ⟨v.q - 1, v.r + 2, VertexSpin.Up⟩,
     ⟨v.q - 1, v.r + 1, VertexSpin.Up⟩]

/-- `Vertex::adjacent_edges` from `src/src/hex/vertex.rs`. -/
def Vertex.adjacent_edges (v : Vertex) : List Edge :=
  match v.spin with
  | VertexSpin.Up =>
      [⟨v.q + 1, v.r - 1, EdgeDirection.West⟩, ⟨v.q, v.r, EdgeDirection.NorthEast⟩,
       ⟨v.q, v.r, EdgeDirection.NorthWest⟩]
  | VertexSpin.Down =>
      [⟨v.q, v.r + 1, EdgeDirection.NorthWest⟩, ⟨v.q, v.r + 1, EdgeDirection.West⟩,
       ⟨v.q - 1, v.r + 1, EdgeDirection.NorthEast⟩]

/-- The spin opposite to a given spin. -/
def VertexSpin.opp : VertexSpin → VertexSpin
  | VertexSpin.Up => VertexSpin.Down
  | VertexSpin.Down => VertexSpin.Up

/-- Angle in degrees of the plane vector `(x, y)`, measured
counter-clockwise from the positive x-axis and normalized to
`[0, 360)`: the arc-cosine of the normalized x-component gives the
angle in `[0, 180]` and the lower half-plane is mirrored. -/
noncomputable def angleDeg (x y : ℝ) : ℝ :=
  if 0 ≤ y then Real.arccos (x / Real.sqrt (x ^ 2 + y ^ 2)) * (180 / Real.pi)
  else 360 - Real.arccos (x / Real.sqrt (x ^ 2 + y ^ 2)) * (180 / Real.pi)

/-- Continuous direction between two cells. Modelled from the spec:
`hex/coordinate.rs` is absent from `src/`; the spec defines
`direction(a, b)` as the continuous angle in degrees (`0`–`360`) of the
vector from `a` to `b` in the grid's plane. In the (pointy-top) plane
the vector `(dq, dr) = (b.q - a.q, b.r - a.r)` points along
`(2·dq + dr, √3·dr)` (the hex-center offset, up to the positive factor
`size·√3/2`), whose angle in `[0, 360)` this returns. -/
noncomputable def Axial.direction (a b : Axial) : ℝ :=
  angleDeg (2 * ((b.q - a.q : ℤ) : ℝ) + ((b.r - a.r : ℤ) : ℝ))
    (Real.sqrt 3 * ((b.r - a.r : ℤ) : ℝ))

/-- The sector index `((dir as i32 / 60) % 6) as usize` computed by
`Vertex::distance` in `src/src/hex/vertex.rs` line 252: `direction`
always lies in `[0, 360)`, so the `as i32` truncation is the floor and
`i32` division and remainder on the resulting non-negative values agree
with `Int` division and `emod`. -/
noncomputable def dirSectorIdx (a b : Axial) : Nat :=
  ((⌊Axial.direction a b⌋ / 60) % 6).toNat

/-- The on-axis index `(dir.round() as i32 % 60 != 0) as usize` computed
by `Vertex::distance` in `src/src/hex/vertex.rs` line 255: the direction
is first rounded to the nearest whole degree (`round` here is
`⌊x + 1/2⌋`, which agrees with Rust's round-half-away-from-zero on the
non-negative `direction`), and the index is `0` exactly when that
rounded angle is a multiple of 60. -/
noncomputable def dirOnAxisIdx (a b : Axial) : Nat :=
  if round (Axial.direction a b) % 60 ≠ 0 then 1 else 0

/-- The on-axis test as the claim under scrutiny states it,
`on_axis = (dir mod 60 ≠ 0)` on the exact continuous direction, with no
rounding: index `0` exactly when the direction is an exact multiple of
60 degrees. Used only to state the original claim's formula. -/
noncomputable def dirExactOnAxisIdx (a b : Axial) : Nat :=
  haveI : Decidable (∃ k : ℤ, Axial.direction a b = 60 * (k : ℝ)) :=
    Classical.propDecidable _
  if ∃ k : ℤ, Axial.direction a b = 60 * (k : ℝ) then 0 else 1

/-- The constant `PARITY_ADJUSTMENTS` table from `Vertex::distance` in
`src/src/hex/vertex.rs`: corrections indexed by axis-alignment, spin
parity, and sector. -/
def PARITY_ADJUSTMENTS : List (List (List Int)) :=
  [[[0, 0, 0, 0, 0, 0],
    [1, 3, 3, 1, -1, -1],
    [1, -1, -1, 1, 3, 3]],
   [[0, 0, 0, 0, 0, 0],
    [1, 3, 1, -1, -1, -1],
    [-1, -1, -1, 1, 3, 1]]]

/-- Table lookup `PARITY_ADJUSTMENTS[on_axis][parity][sector]` from
`Vertex::distance` in `src/src/hex/vertex.rs`. -/
def adjustment (on_axis parity sector : Nat) : Int :=
  ((PARITY_ADJUSTMENTS.getD on_axis []).getD parity []).getD sector 0

/-- The spin-parity index from `Vertex::distance` in
`src/src/hex/vertex.rs`: `0` (Same), `1` (NS), or `2` (SN). -/
def parityOf (s1 s2 : VertexSpin) : Nat :=
  if s1 = s2 then 0
  else if s1 = VertexSpin.Up ∧ s2 = VertexSpin.Down then 1
  else 2

/-- `Vertex::distance` from `src/src/hex/vertex.rs` lines 220-262: the
L1 distance between two vertices, with the sector and rounded on-axis
indices of lines 252 and 255 supplied by `dirSectorIdx` and
`dirOnAxisIdx` over the spec-modelled continuous `Axial.direction`. -/
noncomputable def Vertex.distance (a b : Vertex) : Int :=
  if a.q = b.q ∧ a.r = b.r then
    if a.spin = b.spin then 0 else 3
  else
    let dist := Axial.distance ⟨a.q, a.r⟩ ⟨b.q, b.r⟩
    let parity := parityOf a.spin b.spin
    let sector := dirSectorIdx ⟨a.q, a.r⟩ ⟨b.q, b.r⟩
    let on_axis := dirOnAxisIdx ⟨a.q, a.r⟩ ⟨b.q, b.r⟩
    let base_adjustment := adjustment on_axis parity sector
    2 * dist + base_adjustment

/-- Evaluation of the pointy-top inverse conversion at a point whose
normalized coordinates are those of the hex center `(q, r)`. -/
lemma world_to_hex_pt_eval (s : ℚ) (w : ℚ × ℚ) (q r : ℤ)
    (hX : w.1 / (SQRT_3 * s) = (q : ℚ) + (r : ℚ) / 2)
    (hT : SQRT_3 * (-w.2 / (SQRT_3 * s)) + 1 = 1 - 3 / 2 * (r : ℚ)) :
    world_to_hex_pt s w = ⟨q, r⟩ := by
  simp only [world_to_hex_pt]
  rw [hX, hT]
  have hA : 1 - 3 / 2 * (r : ℚ) + ((q : ℚ) + (r : ℚ) / 2) = ((q - r + 1 : ℤ) : ℚ) := by
    push_cast; ring
  rw [hA, Int.floor_intCast]
  have h1 : ⌊(((q - r + 1 : ℤ) : ℚ) + (2 * ((q : ℚ) + (r : ℚ) / 2) + 1)) / 3⌋ = q := by
    have e : (((q - r + 1 : ℤ) : ℚ) + (2 * ((q : ℚ) + (r : ℚ) / 2) + 1)) / 3
        = ((q : ℤ) : ℚ) + 2 / 3 := by push_cast; ring
    rw [e, Int.floor_int_add]
    norm_num
  have h2 : ⌊(((q - r + 1 : ℤ) : ℚ) + (1 - 3 / 2 * (r : ℚ) - ((q : ℚ) + (r : ℚ) / 2))) / 3⌋
      = -r := by
    have e : (((q - r + 1 : ℤ) : ℚ) + (1 - 3 / 2 * (r : ℚ) - ((q : ℚ) + (r : ℚ) / 2))) / 3
        = (2 : ℚ) / 3 - ((r : ℤ) : ℚ) := by push_cast; ring
    rw [e, Int.floor_sub_int]
    norm_num
  rw [h1, h2]
  simp

/-- Evaluation of the flat-top inverse conversion at a point whose
normalized coordinates are those of the hex center `(q, r)`. -/
lemma world_to_hex_ft_eval (s : ℚ) (w : ℚ × ℚ) (q r : ℤ)
    (hT : SQRT_3 * (w.1 / (SQRT_3 * s)) + 1 = 1 + 3 / 2 * (q : ℚ))
    (hX : -w.2 / (SQRT_3 * s) = -((q : ℚ) / 2 + (r : ℚ))) :
    world_to_hex_ft s w = ⟨q, r⟩ := by
  simp only [world_to_hex_ft]
  rw [hX, hT]
  have hA : 1 + 3 / 2 * (q : ℚ) + -((q : ℚ) / 2 + (r : ℚ)) = ((q - r + 1 : ℤ) : ℚ) := by
    push_cast; ring
  rw [hA, Int.floor_intCast]
  have h1 : ⌊(((q - r + 1 : ℤ) : ℚ) + (1 + 3 / 2 * (q : ℚ) - -((q : ℚ) / 2 + (r : ℚ)))) / 3⌋
      = q := by
    have e : (((q - r + 1 : ℤ) : ℚ) + (1 + 3 / 2 * (q : ℚ) - -((q : ℚ) / 2 + (r : ℚ)))) / 3
        = ((q : ℤ) : ℚ) + 2 / 3 := by push_cast; ring
    rw [e, Int.floor_int_add]
    norm_num
  have h2 : ⌊(((q - r + 1 : ℤ) : ℚ) + (2 * -((q : ℚ) / 2 + (r : ℚ)) + 1)) / 3⌋ = -r := by
    have e : (((q - r + 1 : ℤ) : ℚ) + (2 * -((q : ℚ) / 2 + (r : ℚ)) + 1)) / 3
        = (2 : ℚ) / 3 - ((r : ℤ) : ℚ) := by push_cast; ring
    rw [e, Int.floor_sub_int]
    norm_num
  rw [h1, h2]
  simp

/-- Claim C1: for every integer axial coordinate `c`, for both
orientations, and for every positive cell size,
`world_to_hex (hex_to_world c) = c`: the world-space conversion composed
with its inverse is the identity on integer cell coordinates. -/
theorem world_to_hex_hex_to_world_id (o : HexOrientation) (s : ℚ) (hs : 0 < s)
    (c : Axial) : (mkGrid o s).world_to_hex ((mkGrid o s).hex_to_world c) = c := by
  obtain ⟨q, r⟩ := c
  have hs0 : s ≠ 0 := ne_of_gt hs
  have h3 : SQRT_3 ≠ 0 := by norm_num [SQRT_3]
  cases o with
  | PointyTop =>
      show world_to_hex_pt s
        (s * (SQRT_3 * (q : ℚ) + SQRT_3 / 2 * (r : ℚ)), s * (3 / 2 * (r : ℚ))) = ⟨q, r⟩
      refine world_to_hex_pt_eval s _ q r ?_ ?_
      · show s * (SQRT_3 * (q : ℚ) + SQRT_3 / 2 * (r : ℚ)) / (SQRT_3 * s)
          = (q : ℚ) + (r : ℚ) / 2
        field_simp
        ring
      · show SQRT_3 * (-(s * (3 / 2 * (r : ℚ))) / (SQRT_3 * s)) + 1 = 1 - 3 / 2 * (r : ℚ)
        field_simp
        ring
  | FlatTop =>
      show world_to_hex_ft s
        (s * (3 / 2 * (q : ℚ)), s * (SQRT_3 / 2 * (q : ℚ) + SQRT_3 * (r : ℚ))) = ⟨q, r⟩
      refine world_to_hex_ft_eval s _ q r ?_ ?_
      · show SQRT_3 * (s * (3 / 2 * (q : ℚ)) / (SQRT_3 * s)) + 1 = 1 + 3 / 2 * (q : ℚ)
        field_simp
        ring
      · show -(s * (SQRT_3 / 2 * (q : ℚ) + SQRT_3 * (r : ℚ))) / (SQRT_3 * s)
          = -((q : ℚ) / 2 + (r : ℚ))
        field_simp
        ring

/-- Witness for claim C1 at orientation `PointyTop`, cell size `10`, and
coordinate `(12, -8)`. -/
theorem world_to_hex_hex_to_world_id_witness :
    (0 : ℚ) < 10 ∧
      (mkGrid HexOrientation.PointyTop 10).world_to_hex
        ((mkGrid HexOrientation.PointyTop 10).hex_to_world ⟨12, -8⟩) = ⟨12, -8⟩ :=
  ⟨by decide,
    world_to_hex_hex_to_world_id HexOrientation.PointyTop 10 (by decide) ⟨12, -8⟩⟩

/-- Claim C2: for every integer axial coordinate `(q, r)` and positive
cell size, `hex_to_world` returns exactly
`x = size·(√3·q + √3/2·r)`, `y = size·(3/2·r)` for `PointyTop` and
`x = size·(3/2·q)`, `y = size·(√3/2·q + √3·r)` for `FlatTop` (with `√3`
the code's `SQRT_3` constant); in particular at cell size 10 with
`PointyTop`, `(0,-15)` maps to `(√3·-75, -225)`, `(0,0)` to `(0,0)`, and
`(15,0)` to `(√3·150, 0)`. -/
theorem hex_to_world_spec (s : ℚ) (hs : 0 < s) (q r : ℤ) :
    (mkGrid HexOrientation.PointyTop s).hex_to_world ⟨q, r⟩
        = (s * (SQRT_3 * (q : ℚ) + SQRT_3 / 2 * (r : ℚ)), s * (3 / 2 * (r : ℚ))) ∧
    (mkGrid HexOrientation.FlatTop s).hex_to_world ⟨q, r⟩
        = (s * (3 / 2 * (q : ℚ)), s * (SQRT_3 / 2 * (q : ℚ) + SQRT_3 * (r : ℚ))) ∧
    (mkGrid HexOrientation.PointyTop 10).hex_to_world ⟨0, -15⟩ = (SQRT_3 * (-75), -225) ∧
    (mkGrid HexOrientation.PointyTop 10).hex_to_world ⟨0, 0⟩ = (0, 0) ∧
    (mkGrid HexOrientation.PointyTop 10).hex_to_world ⟨15, 0⟩ = (SQRT_3 * 150, 0) := by
  refine ⟨rfl, rfl, ?_, ?_, ?_⟩ <;>
  · simp only [HexGrid.hex_to_world, mkGrid, Prod.mk.injEq]
    constructor <;> · push_cast; ring

/-- Witness for claim C2 at cell size `10` and coordinate `(2, 3)`. -/
theorem hex_to_world_spec_witness :
    (0 : ℚ) < 10 ∧
      (mkGrid HexOrientation.PointyTop 10).hex_to_world ⟨2, 3⟩
        = (10 * (SQRT_3 * ((2 : ℤ) : ℚ) + SQRT_3 / 2 * ((3 : ℤ) : ℚ)),
           10 * (3 / 2 * ((3 : ℤ) : ℚ))) :=
  ⟨by decide, (hex_to_world_spec 10 (by decide) 2 3).1⟩

/-- The all-zero correction row gives 0 at every index. -/
lemma getD_zeros (s : Nat) : ([0, 0, 0, 0, 0, 0] : List Int).getD s 0 = 0 := by
  rcases s with _ | _ | _ | _ | _ | _ | s <;> rfl

/-- Corrections for the Same spin parity are 0 for every axis index and
sector. -/
lemma adjustment_parity_zero (i s : Nat) : adjustment i 0 s = 0 := by
  rcases i with _ | _ | i
  · exact getD_zeros s
  · exact getD_zeros s
  · simp [adjustment, PARITY_ADJUSTMENTS]

/-- The vector `(1, √3)` points at exactly 60 degrees. -/
lemma direction_A : Axial.direction ⟨0, 0⟩ ⟨0, 1⟩ = 60 := by
  have h0 : Axial.direction ⟨0, 0⟩ ⟨0, 1⟩ = angleDeg 1 (Real.sqrt 3) := by
    unfold Axial.direction
    norm_num
  have hsum : (1 : ℝ) ^ 2 + Real.sqrt 3 ^ 2 = 4 := by
    rw [Real.sq_sqrt (by norm_num : (0:ℝ) ≤ 3)]
    norm_num
  have h4 : Real.sqrt 4 = 2 := by
    rw [show (4:ℝ) = 2 ^ 2 by norm_num, Real.sqrt_sq (by norm_num : (0:ℝ) ≤ 2)]
  have harc : Real.arccos (1 / 2) = Real.pi / 3 := by
    rw [← Real.cos_pi_div_three]
    exact Real.arccos_cos (by positivity) (by linarith [Real.pi_pos])
  rw [h0]
  unfold angleDeg
  rw [if_pos (Real.sqrt_nonneg 3), hsum, h4, harc]
  have hπ : Real.pi ≠ 0 := Real.pi_ne_zero
  field_simp
  ring

/-- The angle of the vector `(5, √3)` (≈19.1 degrees) lies strictly
between half a degree and 45 degrees. -/
lemma angleDeg_five_bounds :
    1 / 2 < angleDeg 5 (Real.sqrt 3) ∧ angleDeg 5 (Real.sqrt 3) ≤ 45 := by
  have hsum : (5 : ℝ) ^ 2 + Real.sqrt 3 ^ 2 = 28 := by
    rw [Real.sq_sqrt (by norm_num : (0:ℝ) ≤ 3)]
    norm_num
  have hrw : angleDeg 5 (Real.sqrt 3)
      = Real.arccos (5 / Real.sqrt 28) * (180 / Real.pi) := by
    unfold angleDeg
    rw [if_pos (Real.sqrt_nonneg 3), hsum]
  have hs28 : (0:ℝ) < Real.sqrt 28 := Real.sqrt_pos.mpr (by norm_num)
  have hc0 : (0:ℝ) ≤ 5 / Real.sqrt 28 := by positivity
  have hc1 : 5 / Real.sqrt 28 ≤ 1 := by
    rw [div_le_one hs28]
    exact (Real.le_sqrt (by norm_num) (by norm_num)).mpr (by norm_num)
  have hmem : Real.arccos (5 / Real.sqrt 28) ∈ Set.Icc 0 Real.pi :=
    ⟨Real.arccos_nonneg _, Real.arccos_le_pi _⟩
  have hpi4mem : Real.pi / 4 ∈ Set.Icc 0 Real.pi := by
    constructor <;> nlinarith [Real.pi_pos]
  have hcosθ : Real.cos (Real.arccos (5 / Real.sqrt 28)) = 5 / Real.sqrt 28 :=
    Real.cos_arccos (by linarith) hc1
  have hcos4 : Real.cos (Real.pi / 4) < Real.cos (Real.arccos (5 / Real.sqrt 28)) := by
    rw [hcosθ, Real.cos_pi_div_four, div_lt_div_iff (by norm_num) hs28,
      ← Real.sqrt_mul (by norm_num : (0:ℝ) ≤ 2)]
    have h56 : Real.sqrt (2 * 28) < 10 := (Real.sqrt_lt' (by norm_num)).mpr (by norm_num)
    linarith
  have hθ4 : Real.arccos (5 / Real.sqrt 28) < Real.pi / 4 :=
    (Real.strictAntiOn_cos.lt_iff_lt hpi4mem hmem).mp hcos4
  have hsinθ : Real.sin (Real.arccos (5 / Real.sqrt 28)) = Real.sqrt (3 / 28) := by
    rw [Real.sin_arccos]
    congr 1
    rw [div_pow, Real.sq_sqrt (by norm_num : (0:ℝ) ≤ 28)]
    norm_num
  have hπu : Real.pi < 3.1416 := Real.pi_lt_d4
  have hsin360 : Real.sin (Real.pi / 360) < Real.sqrt (3 / 28) := by
    have h1 : Real.sin (Real.pi / 360) < Real.pi / 360 := Real.sin_lt (by positivity)
    have h2 : Real.pi / 360 < Real.sqrt (3 / 28) := by
      apply (Real.lt_sqrt (by positivity)).mpr
      nlinarith [Real.pi_pos]
    linarith
  have hθmem2 : Real.arccos (5 / Real.sqrt 28)
      ∈ Set.Icc (-(Real.pi / 2)) (Real.pi / 2) := by
    constructor
    · linarith [Real.arccos_nonneg (5 / Real.sqrt 28), Real.pi_pos]
    · linarith [Real.pi_pos]
  have h360mem : Real.pi / 360 ∈ Set.Icc (-(Real.pi / 2)) (Real.pi / 2) := by
    constructor <;> nlinarith [Real.pi_pos]
  have hθlb : Real.pi / 360 < Real.arccos (5 / Real.sqrt 28) := by
    apply (Real.strictMonoOn_sin.lt_iff_lt h360mem hθmem2).mp
    rw [hsinθ]
    exact hsin360
  constructor
  · rw [hrw, show (1:ℝ) / 2 = Real.pi / 360 * (180 / Real.pi) by
      field_simp
      ring]
    exact mul_lt_mul_of_pos_right hθlb (by positivity)
  · rw [hrw, show (45:ℝ) = Real.pi / 4 * (180 / Real.pi) by
      field_simp
      ring]
    exact le_of_lt (mul_lt_mul_of_pos_right hθ4 (by positivity))

/-- Direction of `(1,1)` seen from `(-1,0)` is the angle of `(5, √3)`. -/
lemma direction_B : Axial.direction ⟨-1, 0⟩ ⟨1, 1⟩ = angleDeg 5 (Real.sqrt 3) := by
  unfold Axial.direction
  norm_num

/-- The direction from `(0,0)` to `(-150,1)` — the angle of the vector
`(-299, √3)`, ≈179.668 degrees — lies within half a degree below 180. -/
lemma direction_C_bounds :
    179.5 < Axial.direction ⟨0, 0⟩ ⟨-150, 1⟩ ∧
      Axial.direction ⟨0, 0⟩ ⟨-150, 1⟩ < 180 := by
  have h0 : Axial.direction ⟨0, 0⟩ ⟨-150, 1⟩ = angleDeg (-299) (Real.sqrt 3) := by
    unfold Axial.direction
    norm_num
  have hsum : (-299 : ℝ) ^ 2 + Real.sqrt 3 ^ 2 = 89404 := by
    rw [Real.sq_sqrt (by norm_num : (0:ℝ) ≤ 3)]
    norm_num
  have hrw : angleDeg (-299) (Real.sqrt 3)
      = Real.arccos (-299 / Real.sqrt 89404) * (180 / Real.pi) := by
    unfold angleDeg
    rw [if_pos (Real.sqrt_nonneg 3), hsum]
  have hs : (0:ℝ) < Real.sqrt 89404 := Real.sqrt_pos.mpr (by norm_num)
  have hz0 : (0:ℝ) ≤ 299 / Real.sqrt 89404 := by positivity
  have hz1 : 299 / Real.sqrt 89404 < 1 := by
    rw [div_lt_one hs]
    exact (Real.lt_sqrt (by norm_num)).mpr (by norm_num)
  have harc : Real.arccos (-299 / Real.sqrt 89404)
      = Real.pi - Real.arccos (299 / Real.sqrt 89404) := by
    rw [show (-299 : ℝ) / Real.sqrt 89404 = -(299 / Real.sqrt 89404) by ring,
      Real.arccos_neg]
  have hφ0 : 0 < Real.arccos (299 / Real.sqrt 89404) := Real.arccos_pos.mpr hz1
  have hφhalf : Real.arccos (299 / Real.sqrt 89404) ≤ Real.pi / 2 :=
    Real.arccos_le_pi_div_two.mpr hz0
  have hsinφ : Real.sin (Real.arccos (299 / Real.sqrt 89404))
      = Real.sqrt (3 / 89404) := by
    rw [Real.sin_arccos]
    congr 1
    rw [div_pow, Real.sq_sqrt (by norm_num : (0:ℝ) ≤ 89404)]
    norm_num
  have hπl : (3.1415:ℝ) < Real.pi := Real.pi_gt_d4
  have hπu : Real.pi < 3.1416 := Real.pi_lt_d4
  have hsmall : Real.sqrt (3 / 89404) < Real.sin (Real.pi / 360) := by
    have h1 : Real.sqrt (3 / 89404) < 0.0058 :=
      (Real.sqrt_lt' (by norm_num)).mpr (by norm_num)
    have hu0 : (0.0087:ℝ) < Real.pi / 360 := by linarith
    have hu2 : Real.pi / 360 < 0.0088 := by linarith
    have hcube : (Real.pi / 360) ^ 3 < 0.0088 ^ 3 :=
      pow_lt_pow_left hu2 (by positivity) (by norm_num)
    have hsub : (0.0058:ℝ) < Real.pi / 360 - (Real.pi / 360) ^ 3 / 4 := by
      have hc : (0.0088:ℝ) ^ 3 / 4 < 0.0000002 := by norm_num
      linarith
    have hgt : Real.pi / 360 - (Real.pi / 360) ^ 3 / 4 < Real.sin (Real.pi / 360) :=
      Real.sin_gt_sub_cube (by positivity) (by linarith)
    linarith
  have hφmem : Real.arccos (299 / Real.sqrt 89404)
      ∈ Set.Icc (-(Real.pi / 2)) (Real.pi / 2) := by
    constructor
    · linarith [Real.pi_pos]
    · exact hφhalf
  have h360mem : Real.pi / 360 ∈ Set.Icc (-(Real.pi / 2)) (Real.pi / 2) := by
    constructor <;> nlinarith [Real.pi_pos]
  have hφlt : Real.arccos (299 / Real.sqrt 89404) < Real.pi / 360 := by
    apply (Real.strictMonoOn_sin.lt_iff_lt hφmem h360mem).mp
    rw [hsinφ]
    exact hsmall
  have hdir : Axial.direction ⟨0, 0⟩ ⟨-150, 1⟩
      = (Real.pi - Real.arccos (299 / Real.sqrt 89404)) * (180 / Real.pi) := by
    rw [h0, hrw, harc]
  constructor
  · rw [hdir, show (179.5:ℝ) = (Real.pi - Real.pi / 360) * (180 / Real.pi) by
      field_simp
      ring]
    apply mul_lt_mul_of_pos_right _ (by positivity)
    linarith
  · rw [hdir]
    calc (Real.pi - Real.arccos (299 / Real.sqrt 89404)) * (180 / Real.pi)
        < Real.pi * (180 / Real.pi) :=
          mul_lt_mul_of_pos_right (by linarith) (by positivity)
      _ = 180 := by field_simp

/-- Sector of the 60-degree direction: second sector bucket. -/
lemma dirSectorIdx_A : dirSectorIdx ⟨0, 0⟩ ⟨0, 1⟩ = 1 := by
  unfold dirSectorIdx
  rw [direction_A, show (60:ℝ) = ((60:ℤ):ℝ) by norm_num, Int.floor_intCast]
  decide

/-- The 60-degree direction rounds to 60, a multiple of 60: on-axis. -/
lemma dirOnAxisIdx_A : dirOnAxisIdx ⟨0, 0⟩ ⟨0, 1⟩ = 0 := by
  unfold dirOnAxisIdx
  rw [direction_A, show (60:ℝ) = ((60:ℤ):ℝ) by norm_num, round_intCast]
  decide

/-- Sector of the ≈19.1-degree direction: first sector bucket. -/
lemma dirSectorIdx_B : dirSectorIdx ⟨-1, 0⟩ ⟨1, 1⟩ = 0 := by
  have hb := angleDeg_five_bounds
  rw [← direction_B] at hb
  obtain ⟨hl, hu⟩ := hb
  unfold dirSectorIdx
  have h0 : 0 ≤ ⌊Axial.direction ⟨-1, 0⟩ ⟨1, 1⟩⌋ := Int.floor_nonneg.mpr (by linarith)
  have h60 : ⌊Axial.direction ⟨-1, 0⟩ ⟨1, 1⟩⌋ < 60 := by
    apply Int.floor_lt.mpr
    push_cast
    linarith
  rw [Int.ediv_eq_zero_of_lt h0 h60]
  decide

/-- The ≈19.1-degree direction rounds into `[1, 45]`, not a multiple of
60: off-axis. -/
lemma dirOnAxisIdx_B : dirOnAxisIdx ⟨-1, 0⟩ ⟨1, 1⟩ = 1 := by
  have hb := angleDeg_five_bounds
  rw [← direction_B] at hb
  obtain ⟨hl, hu⟩ := hb
  unfold dirOnAxisIdx
  have h1 : 1 ≤ round (Axial.direction ⟨-1, 0⟩ ⟨1, 1⟩) := by
    rw [round_eq]
    apply Int.le_floor.mpr
    push_cast
    linarith
  have h2 : round (Axial.direction ⟨-1, 0⟩ ⟨1, 1⟩) < 60 := by
    rw [round_eq]
    apply Int.floor_lt.mpr
    push_cast
    linarith
  have hmod : round (Axial.direction ⟨-1, 0⟩ ⟨1, 1⟩) % 60
      = round (Axial.direction ⟨-1, 0⟩ ⟨1, 1⟩) :=
    Int.emod_eq_of_lt (by linarith) h2
  rw [if_pos (by omega)]

/-- Sector of the ≈179.668-degree direction: third sector bucket. -/
lemma dirSectorIdx_C : dirSectorIdx ⟨0, 0⟩ ⟨-150, 1⟩ = 2 := by
  obtain ⟨hl, hu⟩ := direction_C_bounds
  unfold dirSectorIdx
  have hfl : ⌊Axial.direction ⟨0, 0⟩ ⟨-150, 1⟩⌋ = 179 := by
    apply Int.floor_eq_iff.mpr
    refine ⟨by push_cast; linarith, by push_cast; linarith⟩
  rw [hfl]
  decide

/-- The ≈179.668-degree direction rounds to 180, a multiple of 60: the
code's rounded test says on-axis. -/
lemma dirOnAxisIdx_C : dirOnAxisIdx ⟨0, 0⟩ ⟨-150, 1⟩ = 0 := by
  obtain ⟨hl, hu⟩ := direction_C_bounds
  unfold dirOnAxisIdx
  have hr : round (Axial.direction ⟨0, 0⟩ ⟨-150, 1⟩) = 180 := by
    rw [round_eq]
    apply Int.floor_eq_iff.mpr
    refine ⟨by push_cast; linarith, by push_cast; linarith⟩
  rw [hr]
  decide

/-- The ≈179.668-degree direction is not an exact multiple of 60: the
claim's unrounded test says off-axis. -/
lemma dirExactOnAxisIdx_C : dirExactOnAxisIdx ⟨0, 0⟩ ⟨-150, 1⟩ = 1 := by
  obtain ⟨hl, hu⟩ := direction_C_bounds
  have hno : ¬ ∃ k : ℤ, Axial.direction ⟨0, 0⟩ ⟨-150, 1⟩ = 60 * (k : ℝ) := by
    rintro ⟨k, hk⟩
    rw [hk] at hl hu
    have h3 : k < 3 := by exact_mod_cast (show ((k:ℝ)) < ((3:ℤ):ℝ) by push_cast; linarith)
    have h2 : 2 < k := by exact_mod_cast (show ((2:ℤ):ℝ) < (k:ℝ) by push_cast; linarith)
    omega
  unfold dirExactOnAxisIdx
  rw [if_neg hno]

/-- Claim C3, as stated, fails on the code: at `(0,0,Up)`,
`(-150,1,Down)` the direction is ≈179.668 degrees. The code rounds the
angle to the nearest whole degree before the mod-60 test
(`vertex.rs` line 255), lands on 180, uses the on-axis correction row
and returns `2·150 + 3 = 303`; the claim's exact `dir mod 60 ≠ 0` test
selects the off-axis row and predicts `2·150 + 1 = 301`. -/
theorem vertex_distance_claim_counterexample :
    Vertex.distance ⟨0, 0, VertexSpin.Up⟩ ⟨-150, 1, VertexSpin.Down⟩ = 303 ∧
    2 * Axial.distance ⟨0, 0⟩ ⟨-150, 1⟩ +
      adjustment (dirExactOnAxisIdx ⟨0, 0⟩ ⟨-150, 1⟩)
        (parityOf VertexSpin.Up VertexSpin.Down) (dirSectorIdx ⟨0, 0⟩ ⟨-150, 1⟩) = 301 := by
  constructor
  · simp only [Vertex.distance]
    rw [if_neg (by decide), dirOnAxisIdx_C, dirSectorIdx_C]
    decide
  · rw [dirExactOnAxisIdx_C, dirSectorIdx_C]
    decide

/-- Claim C3 (amended): for vertices with the same `(q, r)`,
`Vertex.distance` is 0 for equal spins and 3 for opposite spins;
otherwise it is `2·d + Δ` with `d` the cell distance and `Δ` the
`PARITY_ADJUSTMENTS` entry at (on-axis index, spin parity, direction
sector), where the on-axis index tests the direction angle rounded to
the nearest whole degree, `on_axis = (round(dir) mod 60 ≠ 0)`, as
`vertex.rs` line 255 computes it; in particular
`distance((0,0,Up),(1,1,Up)) = 4`, `distance((0,0,Down),(0,1,Up)) = 1`,
and `distance((-1,0,Up),(1,1,Down)) = 7`. -/
theorem vertex_distance_spec_amended :
    (∀ v1 v2 : Vertex,
      Vertex.distance v1 v2 =
        if v1.q = v2.q ∧ v1.r = v2.r then
          if v1.spin = v2.spin then 0 else 3
        else
          2 * Axial.distance ⟨v1.q, v1.r⟩ ⟨v2.q, v2.r⟩ +
            adjustment (dirOnAxisIdx ⟨v1.q, v1.r⟩ ⟨v2.q, v2.r⟩) (parityOf v1.spin v2.spin)
              (dirSectorIdx ⟨v1.q, v1.r⟩ ⟨v2.q, v2.r⟩)) ∧
    Vertex.distance ⟨0, 0, VertexSpin.Up⟩ ⟨1, 1, VertexSpin.Up⟩ = 4 ∧
    Vertex.distance ⟨0, 0, VertexSpin.Down⟩ ⟨0, 1, VertexSpin.Up⟩ = 1 ∧
    Vertex.distance ⟨-1, 0, VertexSpin.Up⟩ ⟨1, 1, VertexSpin.Down⟩ = 7 := by
  refine ⟨fun v1 v2 => rfl, ?_, ?_, ?_⟩
  · simp only [Vertex.distance]
    rw [if_neg (by decide), show parityOf VertexSpin.Up VertexSpin.Up = 0 from rfl,
      adjustment_parity_zero]
    decide
  · simp only [Vertex.distance]
    rw [if_neg (by decide), dirOnAxisIdx_A, dirSectorIdx_A]
    decide
  · simp only [Vertex.distance]
    rw [if_neg (by decide), dirOnAxisIdx_B, dirSectorIdx_B]
    decide

/-- Claim C4: `adjacent_hexes` returns exactly the three cells
`{(q,r), (q,r-1), (q+1,r-1)}` for spin `Up` and
`{(q,r), (q,r+1), (q-1,r+1)}` for spin `Down`; in particular
`adjacent_hexes((0,0,Down)) = {(0,0),(0,1),(-1,1)}` and
`adjacent_hexes((0,0,Up)) = {(0,0),(0,-1),(1,-1)}`. -/
theorem adjacent_hexes_spec :
    (∀ q r : ℤ, Vertex.adjacent_hexes ⟨q, r, VertexSpin.Up⟩
        = [⟨q, r⟩, ⟨q, r - 1⟩, ⟨q + 1, r - 1⟩]) ∧
    (∀ q r : ℤ, Vertex.adjacent_hexes ⟨q, r, VertexSpin.Down⟩
        = [⟨q, r⟩, ⟨q, r + 1⟩, ⟨q - 1, r + 1⟩]) ∧
    Vertex.adjacent_hexes ⟨0, 0, VertexSpin.Down⟩ = [⟨0, 0⟩, ⟨0, 1⟩, ⟨-1, 1⟩] ∧
    Vertex.adjacent_hexes ⟨0, 0, VertexSpin.Up⟩ = [⟨0, 0⟩, ⟨0, -1⟩, ⟨1, -1⟩] :=
  ⟨fun _ _ => rfl, fun _ _ => rfl, by decide, by decide⟩

/-- Claim C5: each of the three vertices returned by `adjacent_vertices`
has the spin opposite to the input vertex's spin. -/
theorem adjacent_vertices_opposite_spin (v : Vertex) :
    v.adjacent_vertices.map Vertex.spin = [v.spin.opp, v.spin.opp, v.spin.opp] := by
  obtain ⟨q, r, sp⟩ := v
  cases sp <;> rfl

/-- Claim C6: each of the three edges returned by `adjacent_edges`
carries one of the three canonical edge directions (`West`, `NorthEast`,
`NorthWest`) — the `EdgeDirection` type has no other variant — and the
direction sequence is the fixed per-spin table. -/
theorem adjacent_edges_canonical (v : Vertex) :
    v.adjacent_edges.map Edge.dir =
      (match v.spin with
       | VertexSpin.Up =>
           [EdgeDirection.West, EdgeDirection.NorthEast, EdgeDirection.NorthWest]
       | VertexSpin.Down =>
           [EdgeDirection.NorthWest, EdgeDirection.West, EdgeDirection.NorthEast]) ∧
    ∀ e ∈ v.adjacent_edges,
      e.dir = EdgeDirection.West ∨ e.dir = EdgeDirection.NorthEast ∨
        e.dir = EdgeDirection.NorthWest := by
  obtain ⟨q, r, sp⟩ := v
  cases sp <;> refine ⟨rfl, ?_⟩ <;> intro e he <;>
    simp only [Vertex.adjacent_edges, List.mem_cons, List.not_mem_nil, or_false] at he <;>
    rcases he with rfl | rfl | rfl <;> simp

/-- Witness for claim C6 at the vertex `(0, 0, Up)` and its first
adjacent edge. -/
theorem adjacent_edges_canonical_witness :
    (⟨1, -1, EdgeDirection.West⟩ : Edge) ∈
        (⟨0, 0, VertexSpin.Up⟩ : Vertex).adjacent_edges ∧
      ((⟨1, -1, EdgeDirection.West⟩ : Edge).dir = EdgeDirection.West ∨
        (⟨1, -1, EdgeDirection.West⟩ : Edge).dir = EdgeDirection.NorthEast ∨
        (⟨1, -1, EdgeDirection.West⟩ : Edge).dir = EdgeDirection.NorthWest) :=
  ⟨by decide,
    (adjacent_edges_canonical ⟨0, 0, VertexSpin.Up⟩).2 ⟨1, -1, EdgeDirection.West⟩ (by decide)⟩

/-- Claim C9: converting any `i32` to a `VertexDirection` is total (the
invalid-variant arm is never reached), and equals the conversion of the
non-negative remainder of the input modulo 6. -/
theorem vertexDirectionFromI32_total (n : Int) :
    (vertexDirectionFromI32 n).isSome = true ∧
    vertexDirectionFromI32 n = vertexDirectionFromI32 (n.emod 6) ∧
    0 ≤ n.emod 6 ∧ n.emod 6 < 6 := by
  have h0 : 0 ≤ n.emod 6 := Int.emod_nonneg n (by norm_num)
  have h6 : n.emod 6 < 6 := Int.emod_lt_of_pos n (by norm_num)
  have hid : (n.emod 6).emod 6 = n.emod 6 := Int.emod_emod_of_dvd n dvd_rfl
  refine ⟨?_, ?_, h0, h6⟩
  · obtain ⟨m, hm, hm0, hm6⟩ : ∃ m, n.emod 6 = m ∧ 0 ≤ m ∧ m < 6 := ⟨_, rfl, h0, h6⟩
    unfold vertexDirectionFromI32
    rw [hm]
    interval_cases m <;> rfl
  · unfold vertexDirectionFromI32
    rw [hid]

/-- The fold over `shape.get_hexes().indexed_iter()` performed by
`HexGrid::apply_shape` in `src/src/hex/grid.rs`: every populated slot
`((i, j), Some(value))` inserts `value` into the tile mapping at
`axial!(i as i32, j as i32).apply_transform(transform)` (a `HashMap`
insert is embedded as a pointwise function update); empty slots do
nothing. -/
def applyTiles {T : Type} (transform : Transform) (ℓ : List ((Nat × Nat) × Option T))
    (tiles : Axial → Option T) : Axial → Option T :=
  ℓ.foldl
    (fun acc ele =>
      match ele.2 with
      | some value => fun c =>
          if c = Axial.apply_transform ⟨(ele.1.1 : Int), (ele.1.2 : Int)⟩ transform then
            some value
          else acc c
      | none => acc)
    tiles

/-- `HexGrid::apply_shape` from `src/src/hex/grid.rs`: apply the shape
onto the grid's tile collection; only the `tiles` field changes. -/
def HexGrid.apply_shape {T V E : Type} (g : HexGrid T V E) (shape : HexShape T) :
    HexGrid T V E :=
  { g with tiles := applyTiles shape.transform shape.get_hexes g.tiles }

/-- `HexGrid::extract_shape` from `src/src/hex/grid.rs`: every already
populated slot is overwritten with the grid's value (or no value) at the
transformed coordinate; unpopulated slots are left untouched. -/
def HexGrid.extract_shape {T V E : Type} (g : HexGrid T V E) (shape : HexShape T) :
    HexShape T :=
  { shape with
      hexes := shape.hexes.mapIdx fun i row => row.mapIdx fun j slot =>
        if slot.isSome then
          g.tiles (Axial.apply_transform ⟨(i : Int), (j : Int)⟩ shape.transform)
        else slot }

/-- The write list induced by a slot enumeration: each populated slot
`((i, j), Some(value))` contributes the pair (transformed coordinate,
value), in iteration order. -/
def writesOf {T : Type} (transform : Transform) (ℓ : List ((Nat × Nat) × Option T)) :
    List (Axial × T) :=
  ℓ.filterMap fun ele =>
    ele.2.map fun value => (Axial.apply_transform ⟨(ele.1.1 : Int), (ele.1.2 : Int)⟩ transform, value)

/-- The value of the last write targeting coordinate `c` in a write
list, if any (later list entries win). -/
def lastWrite {T : Type} : List (Axial × T) → Axial → Option T
  | [], _ => none
  | w :: ws, c =>
    match lastWrite ws c with
    | some v => some v
    | none => if w.1 = c then some w.2 else none

/-- A coordinate targeted by no write is missed by `lastWrite`. -/
lemma lastWrite_eq_none_of_not_mem {T : Type} (ws : List (Axial × T)) (c : Axial)
    (h : c ∉ ws.map Prod.fst) : lastWrite ws c = none := by
  induction ws with
  | nil => rfl
  | cons w ws ih =>
      simp only [List.map_cons, List.mem_cons] at h
      push_neg at h
      rw [lastWrite, ih h.2, if_neg (fun he => h.1 he.symm)]

/-- Folding the insertions of a slot enumeration over a tile mapping
realizes exactly the last-write-wins semantics of the induced write
list. -/
lemma applyTiles_eq_lastWrite {T : Type} (transform : Transform)
    (ℓ : List ((Nat × Nat) × Option T)) (tiles : Axial → Option T) (c : Axial) :
    applyTiles transform ℓ tiles c =
      match lastWrite (writesOf transform ℓ) c with
      | some v => some v
      | none => tiles c := by
  induction ℓ generalizing tiles with
  | nil => rfl
  | cons e rest ih =>
      obtain ⟨⟨i, j⟩, slot⟩ := e
      cases slot with
      | none =>
          have hstep : applyTiles transform (((i, j), (none : Option T)) :: rest) tiles
              = applyTiles transform rest tiles := rfl
          have hw : writesOf transform (((i, j), (none : Option T)) :: rest)
              = writesOf transform rest := rfl
          rw [hstep, hw]
          exact ih tiles
      | some v =>
          have hstep : applyTiles transform (((i, j), some v) :: rest) tiles
              = applyTiles transform rest
                  (fun c2 =>
                    if c2 = Axial.apply_transform ⟨(i : Int), (j : Int)⟩ transform then some v
                    else tiles c2) := rfl
          have hw : writesOf transform (((i, j), some v) :: rest)
              = (Axial.apply_transform ⟨(i : Int), (j : Int)⟩ transform, v)
                  :: writesOf transform rest := rfl
          rw [hstep, ih, hw]
          cases hlw : lastWrite (writesOf transform rest) c with
          | some w => rw [lastWrite, hlw]
          | none =>
              rw [lastWrite, hlw]
              by_cases hc : c = Axial.apply_transform ⟨(i : Int), (j : Int)⟩ transform
              · rw [if_pos hc, if_pos hc.symm]
              · rw [if_neg hc, if_neg (fun he => hc he.symm)]

/-- Claim C7: `apply_shape` inserts, for each populated slot at local
index `(i, j)`, the slot's payload at the coordinate obtained by
applying `shape.transform` to `(i, j)`, with last write winning and no
collision error; empty slots cause no insertion or removal, and every
tile at a coordinate targeted by no populated slot is unchanged. -/
theorem apply_shape_tiles_spec {T V E : Type} (g : HexGrid T V E) (s : HexShape T) :
    (∀ c : Axial,
      (g.apply_shape s).tiles c =
        match lastWrite (writesOf s.transform s.get_hexes) c with
        | some v => some v
        | none => g.tiles c) ∧
    ∀ c : Axial, c ∉ (writesOf s.transform s.get_hexes).map Prod.fst →
      (g.apply_shape s).tiles c = g.tiles c := by
  constructor
  · intro c
    exact applyTiles_eq_lastWrite s.transform s.get_hexes g.tiles c
  · intro c hc
    have h := applyTiles_eq_lastWrite s.transform s.get_hexes g.tiles c
    rw [lastWrite_eq_none_of_not_mem _ _ hc] at h
    exact h

/-- Witness for claim C7: a one-row shape with one populated and one
empty slot, applied with the identity transform to an empty grid of
`Int` payloads; the coordinate `(7, 7)` is targeted by no slot and keeps
its (empty) entry. -/
theorem apply_shape_tiles_spec_witness :
    (⟨7, 7⟩ : Axial) ∉
        (writesOf (⟨0, ⟨0, 0⟩, false⟩ : Transform)
          (HexShape.get_hexes ⟨[[some (5 : Int), none]], ⟨0, ⟨0, 0⟩, false⟩⟩)).map Prod.fst ∧
      (HexGrid.apply_shape
          (⟨HexOrientation.PointyTop, 32, fun _ => none, fun _ => none, fun _ => none⟩ :
            HexGrid Int Unit Unit)
          ⟨[[some (5 : Int), none]], ⟨0, ⟨0, 0⟩, false⟩⟩).tiles ⟨7, 7⟩
        = (⟨HexOrientation.PointyTop, 32, fun _ => none, fun _ => none, fun _ => none⟩ :
            HexGrid Int Unit Unit).tiles ⟨7, 7⟩ :=
  ⟨by decide,
    (apply_shape_tiles_spec
        (⟨HexOrientation.PointyTop, 32, fun _ => none, fun _ => none, fun _ => none⟩ :
          HexGrid Int Unit Unit)
        ⟨[[some (5 : Int), none]], ⟨0, ⟨0, 0⟩, false⟩⟩).2 ⟨7, 7⟩ (by decide)⟩

/-- Indexed lookup in a `mapIdx` image. -/
lemma getElem?_mapIdx {α β : Type} (f : Nat → α → β) (l : List α) (i : Nat) :
    (l.mapIdx f)[i]? = (l[i]?).map (f i) := by
  induction l generalizing f i with
  | nil => rfl
  | cons a as ih =>
      rw [List.mapIdx_cons]
      cases i with
      | zero => simp
      | succ k =>
          simp only [List.getElem?_cons_succ]
          exact ih (fun i => f (i + 1)) k

/-- The slot of a shape at local index `(i, j)`: `none` when the index
is out of range, otherwise the (optional) payload stored there. -/
def slotGet {T : Type} (s : HexShape T) (i j : Nat) : Option (Option T) :=
  (s.hexes[i]?).bind fun row => row[j]?

/-- Claim C8: `extract_shape` overwrites each populated slot with the
grid's value (or no value) at the coordinate obtained by applying
`shape.transform` to the slot's local index, leaves every unpopulated
slot untouched, and does not alter the shape's transform. -/
theorem extract_shape_spec {T V E : Type} (g : HexGrid T V E) (s : HexShape T) :
    (∀ i j : Nat,
      slotGet (g.extract_shape s) i j =
        (slotGet s i j).map fun slot =>
          if slot.isSome then
            g.tiles (Axial.apply_transform ⟨(i : Int), (j : Int)⟩ s.transform)
          else slot) ∧
    (g.extract_shape s).transform = s.transform := by
  refine ⟨fun i j => ?_, rfl⟩
  simp only [HexGrid.extract_shape, slotGet, getElem?_mapIdx]
  cases s.hexes[i]? with
  | none => rfl
  | some row =>
      simp only [Option.map_some', Option.some_bind, getElem?_mapIdx]

/-- Claim C10: `apply_shape` modifies only the grid's cell mapping; the
vertex mapping, the edge mapping, the orientation, and the cell size
are all unchanged. -/
theorem apply_shape_frame {T V E : Type} (g : HexGrid T V E) (s : HexShape T) :
    (g.apply_shape s).vertices = g.vertices ∧
    (g.apply_shape s).edges = g.edges ∧
    (g.apply_shape s).orientation = g.orientation ∧
    (g.apply_shape s).hex_size = g.hex_size :=
  ⟨rfl, rfl, rfl, rfl⟩

end Gridava
